import Mathlib

/-!
pman: listening-port snapshot, classification and kill dialog

A shallow embedding of `process/process.go` and of the state machine of
`main.go`, followed by the properties proved about them.

Conventions of the embedding.

* A Go `string` is a Lean `String`; the functions below work on its list of
  characters.  Every needle the program searches for is ASCII, so searching
  characters and searching bytes agree on well-formed UTF-8 text.
* `uint32` values are `Nat`, `int32` and `int` values are `Int`.  The program does
  no arithmetic on them, and the conversions `int(conn.Laddr.Port)`,
  `int(uids[0])` and `int(p.PID)` keep the value (`int` has 64 bits), so no
  wrap-around is involved; every statement is proved for all naturals and
  integers, the machine ranges included.
* A Go call returning `(value, error)` is an `Except Error value`; on failure the
  Go variable holds the zero value of its type, which the embedding writes out
  where the program goes on to read the variable.
* The operating system is an oracle whose answers may depend on the whole
  history of calls made so far; the history (a list of `Call`) is threaded
  through every effectful function and extended by each call.
-/

namespace Pman

/-! ## Strings (Go packages `strings`, `path/filepath`, `fmt`) -/

/-- Go `unicode.ToLower`: ASCII is handled directly, every other code point goes
through the Unicode case tables, which are the parameter `uni`. -/
def toLowerRune (uni : Char → Char) (r : Char) : Char :=
  if r.toNat ≤ 127 then
    if 65 ≤ r.toNat ∧ r.toNat ≤ 90 then Char.ofNat (r.toNat + 32) else r
  else uni r

/-- Go `strings.ToLower`: every rune mapped by `unicode.ToLower`. -/
def ToLower (uni : Char → Char) (s : String) : String :=
  ⟨s.data.map (toLowerRune uni)⟩

/-- Scan of `strings.Contains`: is `sub` found at the current position or at a later one. -/
def containsFrom (sub : List Char) : List Char → Bool
  | [] => sub.isPrefixOf []
  | c :: rest => sub.isPrefixOf (c :: rest) || containsFrom sub rest

/-- Go `strings.Contains(s, substr)`. -/
def Contains (s substr : String) : Bool :=
  containsFrom substr.data s.data

/-- Go `strings.HasSuffix`:
`len(s) >= len(suffix) && s[len(s)-len(suffix):] == suffix`. -/
def HasSuffix (s suffix : String) : Bool :=
  decide (s.data.length ≥ suffix.data.length) &&
    decide (s.data.drop (s.data.length - suffix.data.length) = suffix.data)

/-- Loop of `filepath.Ext`, walking from the last character towards the first:
`todo` holds the characters at index `i, i-1, ..., 0` and `tail` is `path[i+1:]`. -/
def extLoop : List Char → List Char → List Char
  | [], _ => []
  | c :: todo, tail =>
    if c = '/' then []
    else if c = '.' then c :: tail
    else extLoop todo (c :: tail)

/-- Go `filepath.Ext` with the Unix path separator. -/
def Ext (path : String) : String :=
  ⟨extLoop path.data.reverse []⟩

/-- The byte `'0' + d`. -/
def digitByte (d : Nat) : Char := Char.ofNat (48 + d)

/-- The digit loop of Go integer formatting:
`for u >= 10 { buf = '0'+u%10 : buf; u /= 10 }; buf = '0'+u : buf`.
The first argument bounds the number of iterations. -/
def fmtDigits : Nat → Nat → List Char → List Char
  | 0, u, buf => digitByte (u % 10) :: buf
  | fuel + 1, u, buf =>
    if 10 ≤ u then fmtDigits fuel (u / 10) (digitByte (u % 10) :: buf)
    else digitByte u :: buf

/-- Decimal text of an unsigned integer (verb `%d`); `u` iterations always suffice. -/
def fmtUint (u : Nat) : String := ⟨fmtDigits u u []⟩

/-- Decimal text of a signed integer (verb `%d`, `strconv.Itoa`): a minus sign
followed by the digits of the magnitude when negative. -/
def fmtInt (i : Int) : String :=
  if i < 0 then ⟨'-' :: (fmtUint i.natAbs).data⟩ else fmtUint i.natAbs

/-! ## `process/process.go`: the pure functions -/

/-- Source `getProtocol`. -/
def getProtocol (t : Nat) : String :=
  if t = 1 then "TCP"
  else if t = 2 then "UDP"
  else fmtUint t

/-- Source `guessLanguage`. -/
def guessLanguage (uni : Char → Char) (name cmdline : String) : String :=
  let name := ToLower uni name
  let cmdline := ToLower uni cmdline
  if Contains name "python" || Contains cmdline "python" then "Python"
  else if Contains name "java" || Contains cmdline "java" then "Java"
  else if Contains name "node" || Contains cmdline "node" then "Node.js"
  else if Contains name "go" || HasSuffix name "main" then "Go"
  else if Contains name "ruby" then "Ruby"
  else if Contains name "php" then "PHP"
  else if Contains name "docker" || Contains name "com.docker" then "Docker"
  else if name = "launchd" ∨ name = "kernel_task" ∨ name = "systemd" then "System"
  else if Ext name ≠ "" then "Binary"
  else "System/Binary"

/-! ## `process/process.go`: data and operating-system interface -/

/-- Go `error` values, identified by their message. -/
abbrev Error := String

/-- Source `PortInfo`. -/
structure PortInfo where
  Port : Int
  Protocol : String
  PID : Int
  User : String
  Command : String
  Language : String
  deriving DecidableEq

/-- The fields of gopsutil `net.ConnectionStat` the program reads:
`Type` (here `Type_`), `Laddr.Port`, `Status` and `Pid`. -/
structure ConnectionStat where
  Type_ : Nat
  LaddrPort : Nat
  Status : String
  Pid : Int
  deriving DecidableEq

/-- A gopsutil process handle. -/
structure Process where
  Pid : Int
  deriving DecidableEq

/-- Go `user.User`, of which only `Username` is read. -/
structure User where
  Username : String
  deriving DecidableEq

/-- One request made to the operating system. -/
inductive Call where
  | Connections (kind : String)
  | NewProcess (pid : Int)
  | Username (proc : Process)
  | Uids (proc : Process)
  | LookupId (uid : String)
  | Name (proc : Process)
  | Cmdline (proc : Process)
  | Kill (proc : Process)
  deriving DecidableEq

/-- The behaviour of the operating system and of the libraries wrapping it
(gopsutil `net` and `process`, Go `os/user`).  Every answer may depend on the
history of the calls made before it. -/
structure OS where
  Connections : List Call → String → Except Error (List ConnectionStat)
  NewProcess : List Call → Int → Except Error Process
  Username : List Call → Process → Except Error String
  Uids : List Call → Process → Except Error (List Int)
  LookupId : List Call → String → Except Error User
  Name : List Call → Process → Except Error String
  Cmdline : List Call → Process → Except Error String
  Kill : List Call → Process → Option Error

/-! ## `process/process.go`: `GetListeningPorts` and `KillProcess` -/

/-- Source `GetListeningPorts`, lines 58-69: the primary user name query and its
fallback through the numeric user id.  Returns the value of `username` when
line 70 is reached. -/
def queryUsername (os : OS) (proc : Process) (tr : List Call) : String × List Call :=
  match os.Username tr proc with
  | .ok username => (username, tr ++ [Call.Username proc])
  | .error _ =>
    let tr := tr ++ [Call.Username proc]
    match os.Uids tr proc with
    | .ok (uid :: _) =>
      let tr := tr ++ [Call.Uids proc]
      match os.LookupId tr (fmtInt uid) with
      | .ok u => (u.Username, tr ++ [Call.LookupId (fmtInt uid)])
      | .error _ => ("", tr ++ [Call.LookupId (fmtInt uid)])
    | _ => ("", tr ++ [Call.Uids proc])

/-- Source `GetListeningPorts`, lines 57-87: the body run once the process
handle `proc` is open. -/
def fillDetails (uni : Char → Char) (os : OS) (proc : Process) (info : PortInfo)
    (tr : List Call) : PortInfo × List Call :=
  let (username, tr) := queryUsername os proc tr
  let username := if username = "" then "unknown" else username
  let info := { info with User := username }
  let nameRes := os.Name tr proc
  let tr := tr ++ [Call.Name proc]
  let name := match nameRes with
    | .ok name => name
    | .error _ => ""
  let info := match nameRes with
    | .ok name => { info with Command := name }
    | .error _ => info
  let cmdRes := os.Cmdline tr proc
  let tr := tr ++ [Call.Cmdline proc]
  match cmdRes with
  | .ok cmdline => ({ info with Language := guessLanguage uni name cmdline }, tr)
  | .error _ => ({ info with Language := guessLanguage uni name "" }, tr)

/-- Source `GetListeningPorts`, lines 47-89: the record built for one connection
that passed the filters. -/
def buildInfo (uni : Char → Char) (os : OS) (conn : ConnectionStat) (tr : List Call) :
    PortInfo × List Call :=
  let info : PortInfo :=
    { Port := (conn.LaddrPort : Int), Protocol := getProtocol conn.Type_, PID := conn.Pid,
      User := "", Command := "", Language := "" }
  if conn.Pid > 0 then
    match os.NewProcess tr conn.Pid with
    | .ok proc => fillDetails uni os proc info (tr ++ [Call.NewProcess conn.Pid])
    | .error _ => (info, tr ++ [Call.NewProcess conn.Pid])
  else (info, tr)

/-- The dedup key of line 41, `fmt.Sprintf("%d-%d", conn.Laddr.Port, conn.Pid)`. -/
def connKey (conn : ConnectionStat) : String :=
  fmtUint conn.LaddrPort ++ "-" ++ fmtInt conn.Pid

/-- Source `GetListeningPorts`, lines 34-92: the loop over the connections.
`seen` is the `map[string]bool`, absent keys reading `false`. -/
def portsLoop (uni : Char → Char) (os : OS) :
    List ConnectionStat → List PortInfo → (String → Bool) → List Call →
      List PortInfo × List Call
  | [], results, _, tr => (results, tr)
  | conn :: rest, results, seen, tr =>
    if conn.Status ≠ "LISTEN" then portsLoop uni os rest results seen tr
    else
      let key := connKey conn
      if seen key then portsLoop uni os rest results seen tr
      else
        let seen := fun k => if k = key then true else seen k
        let (info, tr) := buildInfo uni os conn tr
        portsLoop uni os rest (results ++ [info]) seen tr

/-- Source `GetListeningPorts`.  The result is the Go pair `(records, error)`, a
nil slice being the empty list, together with the extended call history. -/
def GetListeningPorts (uni : Char → Char) (os : OS) (tr : List Call) :
    (List PortInfo × Option Error) × List Call :=
  match os.Connections tr "all" with
  | .error err => (([], some err), tr ++ [Call.Connections "all"])
  | .ok connections =>
    let (results, tr) :=
      portsLoop uni os connections [] (fun _ => false) (tr ++ [Call.Connections "all"])
    ((results, none), tr)

/-- Source `KillProcess`: the returned error (`none` is nil) and the extended
call history. -/
def KillProcess (os : OS) (pid : Int) (tr : List Call) : Option Error × List Call :=
  match os.NewProcess tr pid with
  | .error err => (some err, tr ++ [Call.NewProcess pid])
  | .ok proc =>
    let tr := tr ++ [Call.NewProcess pid]
    (os.Kill tr proc, tr ++ [Call.Kill proc])

/-! ## `main.go`: the state machine of the user interface -/

/-- The state of a bubbles `table.Model` the program depends on. -/
structure Table where
  rows : List (List String)
  cursor : Int
  columns : List (String × Nat)
  width : Int
  height : Int

/-- The state of a bubbles `textinput.Model` the program depends on. -/
structure TextInput where
  value : String
  focused : Bool

/-- The messages `Update` distinguishes.  A key is given by `msg.String()`; a
mouse event by whether its action is a release, whether its button is the left
one, and its position. -/
inductive Msg where
  | Key (s : String)
  | Mouse (release left : Bool) (X Y : Int)
  | WindowSize (Width Height : Int)
  | ports (ps : List PortInfo)
  | tick
  | err (e : Error)
  | other
  deriving DecidableEq

/-- The commands `Update` hands back to the runtime. -/
inductive Cmd where
  | none
  | Quit
  | refreshPorts
  | tick
  | Batch (a b : Cmd)
  | Blink
  | widget

/-- Behaviour of the libraries the interface is built on: how the bubbles table
moves its cursor (on a message, on `SetRows`, on `GotoTop`), how the text input
reacts to a message, and the order `sort.Slice` leaves a slice in. -/
structure Widgets where
  tableUpdate : Table → Msg → Int
  tableSetRows : Table → List (List String) → Int
  tableGotoTop : Table → Int
  textUpdate : TextInput → Msg → TextInput
  sortSlice : (PortInfo → PortInfo → Bool) → List PortInfo → List PortInfo

/-- Source `model`.  In the program `selectedPort` points into the array behind
`filteredPorts` as it was when ctrl+d was pressed.  `updateTableRows` starts from
a fresh empty slice, `append` and `sort.Slice` write to that fresh slice only,
and nothing else writes to an array, so the pointer always reads the record it
was taken from; here it is that record. -/
structure model where
  table : Table
  textInput : TextInput
  ports : List PortInfo
  filteredPorts : List PortInfo
  err : Option Error
  width : Int
  height : Int
  showModal : Bool
  searching : Bool
  filter : String
  selectedPort : Option PortInfo
  statusMessage : String
  sortColumn : String
  sortDesc : Bool

/-- The comparison closure handed to `sort.Slice` in `updateTableRows`. -/
def sortLess (sortColumn : String) (sortDesc : Bool) (p1 p2 : PortInfo) : Bool :=
  let less : Bool :=
    if sortColumn = "Port" then decide (p1.Port < p2.Port)
    else if sortColumn = "Proto" then decide (p1.Protocol < p2.Protocol)
    else if sortColumn = "PID" then decide (p1.PID < p2.PID)
    else if sortColumn = "User" then decide (p1.User < p2.User)
    else if sortColumn = "Lang" then decide (p1.Language < p2.Language)
    else if sortColumn = "Command" then decide (p1.Command < p2.Command)
    else false
  if sortDesc then !less else less

/-- The table row built for one record in `updateTableRows`. -/
def tableRow (p : PortInfo) : List String :=
  [fmtInt p.Port, p.Protocol, fmtInt p.PID, p.User, p.Language, p.Command]

/-- Source `model.updateTableRows`. -/
def updateTableRows (w : Widgets) (m : model) : model :=
  let filtered := m.ports.filter fun p =>
    !(decide (m.filter ≠ "") && !Contains (fmtInt p.Port) m.filter)
  let filtered :=
    if m.sortColumn ≠ "" then w.sortSlice (sortLess m.sortColumn m.sortDesc) filtered
    else filtered
  let rows := filtered.map tableRow
  { m with
    filteredPorts := filtered
    table := { m.table with rows := rows, cursor := w.tableSetRows m.table rows } }

/-- The column titles and widths used by `main`, `handleHeaderClick` and `updateHeader`. -/
def baseColumns : List (String × Nat) :=
  [("Port", 10), ("Proto", 6), ("PID", 10), ("User", 15), ("Lang", 10), ("Command", 30)]

/-- Source `model.updateHeader`. -/
def updateHeader (m : model) : model :=
  let columns := baseColumns.map fun col =>
    if col.1 = m.sortColumn then
      (if m.sortDesc then col.1 ++ " ▼" else col.1 ++ " ▲", col.2)
    else col
  { m with table := { m.table with columns := columns } }

/-- The column search loop of `handleHeaderClick`; the result is `clickedCol`. -/
def clickedColumn (x : Int) : List (String × Nat) → Int → String
  | [], _ => ""
  | col :: cols, currentX =>
    if x ≥ currentX ∧ x < currentX + col.2 then col.1
    else clickedColumn x cols (currentX + col.2)

/-- Source `model.handleHeaderClick`. -/
def handleHeaderClick (w : Widgets) (m : model) (x : Int) : model :=
  let clickedCol := clickedColumn x baseColumns 1
  if clickedCol ≠ "" then
    let m :=
      if m.sortColumn = clickedCol then { m with sortDesc := !m.sortDesc }
      else { m with sortColumn := clickedCol, sortDesc := false }
    updateHeader (updateTableRows w m)
  else m

/-- Source `model.Update`, lines 175-178: the table sees the message unless a
dialog or the search line is open. -/
def updateTail (w : Widgets) (m : model) (msg : Msg) : model × Cmd :=
  if !m.showModal && !m.searching then
    ({ m with table := { m.table with cursor := w.tableUpdate m.table msg } }, Cmd.widget)
  else (m, Cmd.none)

/-- Table method `GotoTop` applied to the table of the model. -/
def gotoTop (w : Widgets) (m : model) : model :=
  { m with table := { m.table with cursor := w.tableGotoTop m.table } }

/-- Source `model.Update`.  Returns the new model, the command, and the call
history extended by the calls `KillProcess` made. -/
def Update (w : Widgets) (os : OS) (m : model) (msg : Msg) (tr : List Call) :
    (model × Cmd) × List Call :=
  match msg with
  | .Key s =>
    if m.showModal then
      if s = "y" ∨ s = "Y" ∨ s = "enter" then
        let (m, tr) :=
          match m.selectedPort with
          | some sel =>
            match KillProcess os sel.PID tr with
            | (some e, tr) => ({ m with statusMessage := "Error killing process: " ++ e }, tr)
            | (Option.none, tr) =>
              ({ m with statusMessage := "Killed process " ++ fmtInt sel.PID }, tr)
          | Option.none => (m, tr)
        (({ m with showModal := false, selectedPort := Option.none }, Cmd.refreshPorts), tr)
      else if s = "n" ∨ s = "N" ∨ s = "esc" then
        (({ m with showModal := false, selectedPort := Option.none,
                   statusMessage := "Cancelled" }, Cmd.none), tr)
      else if s = "q" ∨ s = "ctrl+c" then ((m, Cmd.Quit), tr)
      else (updateTail w m msg, tr)
    else if m.searching then
      if s = "enter" then
        let m := { m with filter := m.textInput.value, searching := false }
        ((gotoTop w (updateTableRows w m), Cmd.none), tr)
      else if s = "esc" then
        let m := { m with searching := false, textInput := { m.textInput with value := "" },
                          filter := "" }
        ((gotoTop w (updateTableRows w m), Cmd.none), tr)
      else (({ m with textInput := w.textUpdate m.textInput msg }, Cmd.widget), tr)
    else
      if s = "q" ∨ s = "ctrl+c" then ((m, Cmd.Quit), tr)
      else if s = ":" then
        (({ m with searching := true, textInput := { value := "", focused := true } },
          Cmd.Blink), tr)
      else if s = "esc" then
        if m.filter ≠ "" then
          let m := gotoTop w (updateTableRows w { m with filter := "" })
          (({ m with statusMessage := "Filter cleared" }, Cmd.none), tr)
        else ((m, Cmd.none), tr)
      else if s = "ctrl+d" then
        if m.filteredPorts.length > 0 then
          let selectedRow := m.table.cursor
          if selectedRow ≥ 0 ∧ selectedRow < m.filteredPorts.length then
            (({ m with selectedPort := m.filteredPorts[selectedRow.toNat]?, showModal := true },
              Cmd.none), tr)
          else ((m, Cmd.none), tr)
        else ((m, Cmd.none), tr)
      else if s = "r" then ((m, Cmd.refreshPorts), tr)
      else (updateTail w m msg, tr)
  | .Mouse release left X Y =>
    let m := if release && left then (if Y = 2 then handleHeaderClick w m X else m) else m
    (updateTail w m msg, tr)
  | .WindowSize Width Height =>
    let m := { m with width := Width, height := Height,
                      table := { m.table with width := Width - 4, height := Height - 6 } }
    (updateTail w m msg, tr)
  | .ports ps => (updateTail w (updateTableRows w { m with ports := ps }) msg, tr)
  | .tick =>
    if !m.showModal && !m.searching then ((m, Cmd.Batch Cmd.refreshPorts Cmd.tick), tr)
    else ((m, Cmd.tick), tr)
  | .err e => (({ m with err := some e }, Cmd.none), tr)
  | .other => (updateTail w m msg, tr)

/-- The model `main` starts the program with. -/
def initialModel : model :=
  { table := { rows := [], cursor := 0, columns := baseColumns, width := 0, height := 15 }
    textInput := { value := "", focused := true }
    ports := [], filteredPorts := [], err := Option.none, width := 0, height := 0
    showModal := false, searching := false, filter := "", selectedPort := Option.none
    statusMessage := "", sortColumn := "", sortDesc := false }

/-- The model after a sequence of messages.  Every message comes with the call
history at the moment it is handled: between two messages the runtime runs the
commands returned earlier, which may query the operating system. -/
def runUpdates (w : Widgets) (os : OS) : model → List (Msg × List Call) → model
  | m, [] => m
  | m, (msg, tr) :: rest => runUpdates w os (Update w os m msg tr).1.1 rest

/-- A key that confirms the kill dialog. -/
def confirmKey (msg : Msg) : Prop :=
  msg = Msg.Key "y" ∨ msg = Msg.Key "Y" ∨ msg = Msg.Key "enter"

/-- A key that cancels the kill dialog. -/
def cancelKey (msg : Msg) : Prop :=
  msg = Msg.Key "n" ∨ msg = Msg.Key "N" ∨ msg = Msg.Key "esc"

instance (msg : Msg) : Decidable (confirmKey msg) := by
  unfold confirmKey; infer_instance

instance (msg : Msg) : Decidable (cancelKey msg) := by
  unfold cancelKey; infer_instance

/-- The table shows the filtered records: row `i` is the rendering of
`filteredPorts[i]`. -/
def RowsMatch (m : model) : Prop :=
  m.table.rows = m.filteredPorts.map tableRow

/-- The kill dialog is open on the record `sel`. -/
def DialogOn (sel : PortInfo) (m : model) : Prop :=
  m.showModal = true ∧ m.selectedPort = some sel

/-! ## Reference definitions, written from the specification -/

/-- The text `kw` occurs somewhere in `s`. -/
def hasSubstring (s kw : String) : Prop := kw.data <:+: s.data

/-- The text `s` ends with `kw`. -/
def endsWith (s kw : String) : Prop := kw.data <:+ s.data

instance (s kw : String) : Decidable (hasSubstring s kw) := by
  unfold hasSubstring; infer_instance

instance (s kw : String) : Decidable (endsWith s kw) := by
  unfold endsWith; infer_instance

/-- The last of the pieces `s` falls into when cut at every `/`. -/
def lastElement (s : String) : List Char :=
  ((s.data.splitOn '/').getLast?).getD []

/-- The ordered rule table of the classification heuristic, over the lower-cased
name `n` and command line `c`: a condition and the label it yields. -/
def languageRules (n c : String) : List (Bool × String) :=
  [ (decide (hasSubstring n "python" ∨ hasSubstring c "python"), "Python"),
    (decide (hasSubstring n "java" ∨ hasSubstring c "java"), "Java"),
    (decide (hasSubstring n "node" ∨ hasSubstring c "node"), "Node.js"),
    (decide (hasSubstring n "go" ∨ endsWith n "main"), "Go"),
    (decide (hasSubstring n "ruby"), "Ruby"),
    (decide (hasSubstring n "php"), "PHP"),
    (decide (hasSubstring n "docker"), "Docker"),
    (decide (n = "launchd" ∨ n = "kernel_task" ∨ n = "systemd"), "System"),
    (decide ('.' ∈ lastElement n), "Binary") ]

/-- First-match-wins reference of the classification heuristic: the label of the
first rule whose condition holds, and "System/Binary" when none does. -/
def guessLanguageRef (uni : Char → Char) (name cmdline : String) : String :=
  match (languageRules (ToLower uni name) (ToLower uni cmdline)).find? (fun r => r.1) with
  | some r => r.2
  | none => "System/Binary"

/-- The closed set of classification labels. -/
def languageLabels : List String :=
  ["Python", "Java", "Node.js", "Go", "Ruby", "PHP", "Docker", "System", "Binary",
   "System/Binary"]

/-- The number a text of decimal digits denotes, most significant digit first. -/
def decimalValue (s : List Char) : Nat :=
  s.foldl (fun acc c => 10 * acc + (c.toNat - 48)) 0

/-- The text `s` is the decimal numeral of `n`: non-empty, digits only, no
superfluous leading zero, and of value `n`. -/
def IsDecimalOf (s : String) (n : Nat) : Prop :=
  s.data ≠ [] ∧ (∀ c ∈ s.data, 48 ≤ c.toNat ∧ c.toNat ≤ 57) ∧
    (s.data.head? = some '0' → s.data = ['0']) ∧ decimalValue s.data = n

/-- The pair a snapshot is deduplicated on: local port and process id. -/
def connPair (c : ConnectionStat) : Nat × Int := (c.LaddrPort, c.Pid)

/-- The connections of `l` that are the first with their pair, in the order met;
`before` lists the connections that came earlier. -/
def firstOccurrencesFrom (before : List ConnectionStat) :
    List ConnectionStat → List ConnectionStat
  | [] => []
  | c :: cs =>
    if ∃ d ∈ before, connPair d = connPair c then firstOccurrencesFrom (before ++ [c]) cs
    else c :: firstOccurrencesFrom (before ++ [c]) cs

/-- The connections whose status is exactly "LISTEN". -/
def listening (conns : List ConnectionStat) : List ConnectionStat :=
  conns.filter fun c => c.Status = "LISTEN"

/-- The connections a snapshot has a record for: the listening ones, only the
first occurrence of each pair, in the order met. -/
def keptConnections (conns : List ConnectionStat) : List ConnectionStat :=
  firstOccurrencesFrom [] (listening conns)

/-- The reference sequence of (port, protocol, pid) triples of a snapshot. -/
def referenceTriples (conns : List ConnectionStat) : List (Int × String × Int) :=
  (keptConnections conns).map fun c => ((c.LaddrPort : Int), getProtocol c.Type_, c.Pid)

/-- One record per connection of the list, in order, each built by `buildInfo`
at the call history its predecessors left. -/
def buildAll (uni : Char → Char) (os : OS) :
    List ConnectionStat → List Call → List PortInfo × List Call
  | [], tr => ([], tr)
  | c :: cs, tr =>
    let r := buildInfo uni os c tr
    let rest := buildAll uni os cs r.2
    (r.1 :: rest.1, rest.2)

/-- The record of a connection whose process was not inspected: port, protocol
and pid only, the other fields at the zero value. -/
def bareInfo (c : ConnectionStat) : PortInfo :=
  { Port := (c.LaddrPort : Int), Protocol := getProtocol c.Type_, PID := c.Pid,
    User := "", Command := "", Language := "" }


/-! ## A sample host, used to instantiate the statements -/

/-- A connection table: a Python server reported once per address family and once
as an established connection, a socket whose process has exited, a resolver whose
user name only the fallback finds, and a socket without owning process. -/
def sampleTable : List ConnectionStat :=
  [ { Type_ := 1, LaddrPort := 8080, Status := "LISTEN", Pid := 100 },
    { Type_ := 1, LaddrPort := 8080, Status := "LISTEN", Pid := 100 },
    { Type_ := 1, LaddrPort := 8080, Status := "ESTABLISHED", Pid := 100 },
    { Type_ := 1, LaddrPort := 5432, Status := "LISTEN", Pid := 200 },
    { Type_ := 2, LaddrPort := 53, Status := "LISTEN", Pid := 300 },
    { Type_ := 17, LaddrPort := 68, Status := "LISTEN", Pid := 0 } ]

/-- A host answering with `sampleTable`: process 200 cannot be opened, process 300
has no direct user name but user id 1001 ("bob") and no readable command line, and
only process 100 may be killed. -/
def sampleOS : OS where
  Connections := fun _ _ => .ok sampleTable
  NewProcess := fun _ pid => if pid = 200 then .error "process does not exist" else .ok ⟨pid⟩
  Username := fun _ p => if p.Pid = 100 then .ok "alice" else .error "user: unknown userid"
  Uids := fun _ p => if p.Pid = 300 then .ok [1001, 1001] else .error "not available"
  LookupId := fun _ uid => if uid = "1001" then .ok ⟨"bob"⟩ else .error "user: unknown userid"
  Name := fun _ p =>
    if p.Pid = 100 then .ok "python3" else if p.Pid = 300 then .ok "dnsmasq"
    else .error "not available"
  Cmdline := fun _ p =>
    if p.Pid = 100 then .ok "python3 -m http.server 8080" else .error "not available"
  Kill := fun _ p => if p.Pid = 100 then none else some "operation not permitted"

/-- A host on which the connection table cannot be read. -/
def lockedOS : OS :=
  { sampleOS with Connections := fun _ _ => .error "permission denied" }


/-- A table with a single socket that has no owning process (pid 0). -/
def kernelSocketTable : List ConnectionStat :=
  [{ Type_ := 2, LaddrPort := 68, Status := "LISTEN", Pid := 0 }]

/-- The sample host answering with `kernelSocketTable`. -/
def kernelSocketOS : OS :=
  { sampleOS with Connections := fun _ _ => Except.ok kernelSocketTable }

/-- A table with a single listening socket, owned by process 200. -/
def exitedProcessTable : List ConnectionStat :=
  [{ Type_ := 1, LaddrPort := 5432, Status := "LISTEN", Pid := 200 }]

/-- The sample host answering with `exitedProcessTable`; process 200 cannot be
opened. -/
def exitedProcessOS : OS :=
  { sampleOS with Connections := fun _ _ => Except.ok exitedProcessTable }

/-- A table with three distinct listening sockets. -/
def threeSocketTable : List ConnectionStat :=
  [ { Type_ := 1, LaddrPort := 8080, Status := "LISTEN", Pid := 100 },
    { Type_ := 1, LaddrPort := 5432, Status := "LISTEN", Pid := 200 },
    { Type_ := 2, LaddrPort := 53, Status := "LISTEN", Pid := 300 } ]

/-- The sample host answering with `threeSocketTable`; only process 200 cannot be
inspected. -/
def threeSocketOS : OS :=
  { sampleOS with Connections := fun _ _ => Except.ok threeSocketTable }

/-- Widgets that leave the cursor where it is (top on `GotoTop`), ignore typing,
and sort by insertion. -/
def plainWidgets : Widgets where
  tableUpdate := fun t _ => t.cursor
  tableSetRows := fun t _ => t.cursor
  tableGotoTop := fun _ => 0
  textUpdate := fun t _ => t
  sortSlice := fun less l => l.insertionSort fun a b => less a b = true

/-- The record of the Python server of the sample host. -/
def pythonRecord : PortInfo :=
  { Port := 8080, Protocol := "TCP", PID := 100, User := "alice", Command := "python3",
    Language := "Python" }

/-- The records of the sample host, as a snapshot delivers them. -/
def sampleRecords : List PortInfo :=
  [ pythonRecord,
    { Port := 53, Protocol := "UDP", PID := 300, User := "bob", Command := "dnsmasq",
      Language := "System/Binary" } ]

/-- Messages arriving while the kill dialog is open: a tick, a refresh result in
which the records come in another order, a click on the "PID" header, a resize
and a stray key. -/
def sampleInterlude : List (Msg × List Call) :=
  [ (Msg.tick, []),
    (Msg.ports sampleRecords.reverse, []),
    (Msg.Mouse true true 20 2, []),
    (Msg.WindowSize 120 40, []),
    (Msg.Key "x", []) ]


/-! ## Lemmas on the string functions -/

theorem containsFrom_iff (sub s : List Char) : containsFrom sub s = true ↔ sub <:+: s := by
  induction s with
  | nil => simp [containsFrom]
  | cons c rest ih =>
    simp only [containsFrom, Bool.or_eq_true, ih, List.isPrefixOf_iff_prefix,
      List.infix_cons_iff]

theorem Contains_iff (s kw : String) : Contains s kw = true ↔ hasSubstring s kw :=
  containsFrom_iff kw.data s.data

theorem HasSuffix_iff (s kw : String) : HasSuffix s kw = true ↔ endsWith s kw := by
  unfold HasSuffix endsWith
  rw [List.suffix_iff_eq_drop]
  simp only [Bool.and_eq_true, decide_eq_true_eq]
  constructor
  · rintro ⟨_, h⟩; exact h.symm
  · intro h
    refine ⟨?_, h.symm⟩
    have := congrArg List.length h
    simp only [List.length_drop] at this
    omega


theorem splitOnP_append_sep (p : Char → Bool) (a b : List Char) (sep : Char) (hsep : p sep = true)
    (hb : ∀ x ∈ b, ¬ p x = true) :
    (a ++ sep :: b).splitOnP p = a.splitOnP p ++ [b] := by
  induction a with
  | nil =>
    simp [List.splitOnP_cons, hsep, List.splitOnP_eq_single p b hb]
  | cons x a ih =>
    rw [List.cons_append, List.splitOnP_cons, List.splitOnP_cons, ih]
    by_cases hx : p x = true
    · simp [hx]
    · simp only [hx, Bool.false_eq_true, if_false]
      cases hsp : List.splitOnP p a with
      | nil => exact absurd hsp (List.splitOnP_ne_nil p a)
      | cons h t => simp [List.modifyHead]

theorem lastElement_of_no_sep (s : String) (h : '/' ∉ s.data) : lastElement s = s.data := by
  unfold lastElement List.splitOn
  rw [List.splitOnP_eq_single]
  · simp
  · intro x hx hp
    simp only [beq_iff_eq] at hp
    exact h (hp ▸ hx)

theorem lastElement_of_last_sep (s : String) (a b : List Char) (hs : s.data = a ++ '/' :: b)
    (hb : '/' ∉ b) : lastElement s = b := by
  unfold lastElement List.splitOn
  rw [hs, splitOnP_append_sep _ a b '/' (by simp)]
  · simp
  · intro x hx hp
    simp only [beq_iff_eq] at hp
    exact hb (hp ▸ hx)

theorem extLoop_no_sep (todo tail : List Char) (h : '/' ∉ todo) :
    extLoop todo tail ≠ [] ↔ '.' ∈ todo := by
  induction todo generalizing tail with
  | nil => simp [extLoop]
  | cons c todo ih =>
    have hc : c ≠ '/' := fun e => h (e ▸ List.mem_cons_self _ _)
    have ht : '/' ∉ todo := fun e => h (List.mem_cons_of_mem _ e)
    by_cases hd : c = '.'
    · simp [extLoop, hd]
    · simp only [extLoop, hc, hd, if_false, List.mem_cons]
      rw [ih _ ht]
      constructor
      · exact Or.inr
      · rintro (e | e)
        · exact absurd e.symm hd
        · exact e

theorem extLoop_sep (pre rest tail : List Char) (h : '/' ∉ pre) :
    extLoop (pre ++ '/' :: rest) tail ≠ [] ↔ '.' ∈ pre := by
  induction pre generalizing tail with
  | nil => simp [extLoop]
  | cons c pre ih =>
    have hc : c ≠ '/' := fun e => h (e ▸ List.mem_cons_self _ _)
    have ht : '/' ∉ pre := fun e => h (List.mem_cons_of_mem _ e)
    by_cases hd : c = '.'
    · simp [extLoop, hd]
    · simp only [List.cons_append, extLoop, hc, hd, if_false, List.mem_cons]
      have ih2 := ih (c :: tail) ht
      simp only [List.append_eq] at ih2 ⊢
      rw [ih2]
      constructor
      · exact Or.inr
      · rintro (e | e)
        · exact absurd e.symm hd
        · exact e

theorem Ext_ne_empty_iff (s : String) : Ext s ≠ "" ↔ '.' ∈ lastElement s := by
  have hE : Ext s ≠ "" ↔ extLoop s.data.reverse [] ≠ [] := by
    unfold Ext
    constructor
    · intro h e; apply h; rw [e]
    · intro h e; exact h (congrArg String.data e)
  rw [hE]
  by_cases hs : '/' ∈ s.data
  · obtain ⟨as, bs, hrev, hnot⟩ :=
      List.eq_append_cons_of_mem (List.mem_reverse.mpr hs)
    have hdata : s.data = bs.reverse ++ '/' :: as.reverse := by
      have := congrArg List.reverse hrev
      simpa using this
    rw [lastElement_of_last_sep s bs.reverse as.reverse hdata (by simpa using hnot), hrev,
      extLoop_sep as bs [] hnot]
    simp
  · rw [lastElement_of_no_sep s hs, extLoop_no_sep _ _ (by simpa using hs)]
    simp


theorem Contains_eq_decide (s kw : String) : Contains s kw = decide (hasSubstring s kw) := by
  rw [Bool.eq_iff_iff, Contains_iff]; simp

theorem HasSuffix_eq_decide (s kw : String) : HasSuffix s kw = decide (endsWith s kw) := by
  rw [Bool.eq_iff_iff, HasSuffix_iff]; simp

theorem hasSubstring_com_docker (s : String) (h : hasSubstring s "com.docker") :
    hasSubstring s "docker" := by
  unfold hasSubstring at *
  exact List.IsInfix.trans (by decide) h

theorem guessLanguage_mem_labels (uni : Char → Char) (name cmdline : String) :
    guessLanguage uni name cmdline ∈ languageLabels := by
  unfold guessLanguage
  simp only []
  split_ifs <;> simp [languageLabels]

/-- C1: `guessLanguage` equals the first-match-wins reference over the lower-cased
inputs (Python, Java, Node.js, Go, Ruby, PHP, Docker, System, Binary, and
"System/Binary" when nothing matches), its result is always one of the ten labels,
and the six examples of the specification evaluate as stated. -/
theorem guessLanguage_eq_reference (uni : Char → Char) (name cmdline : String) :
    guessLanguage uni name cmdline = guessLanguageRef uni name cmdline ∧
    guessLanguage uni name cmdline ∈ languageLabels ∧
    guessLanguage uni "pythonw.exe" "" = "Python" ∧
    guessLanguage uni "app" "running node server" = "Node.js" ∧
    guessLanguage uni "mybinary-main" "" = "Go" ∧
    guessLanguage uni "systemd" "" = "System" ∧
    guessLanguage uni "foo.sh" "" = "Binary" ∧
    guessLanguage uni "" "" = "System/Binary" := by
  refine ⟨?_, guessLanguage_mem_labels uni name cmdline, rfl, rfl, rfl, rfl, rfl, rfl⟩
  unfold guessLanguage guessLanguageRef languageRules
  simp only [Contains_eq_decide, HasSuffix_eq_decide]
  generalize ToLower uni name = n
  generalize ToLower uni cmdline = c
  have hdock : (hasSubstring n "docker" ∨ hasSubstring n "com.docker") ↔
      hasSubstring n "docker" :=
    ⟨fun h => h.elim id (hasSubstring_com_docker n), Or.inl⟩
  have hext := Ext_ne_empty_iff n
  simp only [Bool.or_eq_true, decide_eq_true_eq, hdock, List.find?_cons]
  by_cases h1 : hasSubstring n "python" ∨ hasSubstring c "python"
  · simp [h1]
  by_cases h2 : hasSubstring n "java" ∨ hasSubstring c "java"
  · simp [h1, h2]
  by_cases h3 : hasSubstring n "node" ∨ hasSubstring c "node"
  · simp [h1, h2, h3]
  by_cases h4 : hasSubstring n "go" ∨ endsWith n "main"
  · simp [h1, h2, h3, h4]
  by_cases h5 : hasSubstring n "ruby"
  · simp [h1, h2, h3, h4, h5]
  by_cases h6 : hasSubstring n "php"
  · simp [h1, h2, h3, h4, h5, h6]
  by_cases h7 : hasSubstring n "docker"
  · simp [h1, h2, h3, h4, h5, h6, h7]
  by_cases h8 : n = "launchd" ∨ n = "kernel_task" ∨ n = "systemd"
  · simp [h1, h2, h3, h4, h5, h6, h7, h8]
  by_cases h9 : '.' ∈ lastElement n
  · simp [h1, h2, h3, h4, h5, h6, h7, h8, h9, hext.mpr h9]
  · have hne : ¬ (Ext n ≠ "") := fun h => h9 (hext.mp h)
    simp [h1, h2, h3, h4, h5, h6, h7, h8, h9, hne]


/-! ## Lemmas on decimal formatting -/

theorem digitByte_toNat (d : Nat) (h : d < 10) : (digitByte d).toNat = 48 + d := by
  interval_cases d <;> rfl

theorem fmtDigits_eq (fuel u : Nat) (buf : List Char) (hu : 0 < u) (hf : u ≤ fuel) :
    fmtDigits fuel u buf = (Nat.digits 10 u).reverse.map digitByte ++ buf := by
  induction fuel generalizing u buf with
  | zero => omega
  | succ fuel ih =>
    unfold fmtDigits
    by_cases h10 : 10 ≤ u
    · rw [if_pos h10, ih (u / 10) _ (Nat.div_pos h10 (by norm_num)) (by omega),
        Nat.digits_def' (by norm_num : 1 < 10) hu]
      simp
    · rw [if_neg h10, Nat.digits_of_lt 10 u (by omega) (by omega)]
      simp

theorem fmtUint_zero : (fmtUint 0).data = ['0'] := rfl

theorem fmtUint_pos (u : Nat) (hu : 0 < u) :
    (fmtUint u).data = (Nat.digits 10 u).reverse.map digitByte := by
  unfold fmtUint
  simp [fmtDigits_eq u u [] hu (le_refl u)]

theorem decimalValue_digits (ds : List Nat) (h : ∀ d ∈ ds, d < 10) :
    decimalValue (ds.reverse.map digitByte) = Nat.ofDigits 10 ds := by
  induction ds with
  | nil => rfl
  | cons d ds ih =>
    have hd := digitByte_toNat d (h d (List.mem_cons_self _ _))
    have ih2 := ih (fun x hx => h x (List.mem_cons_of_mem _ hx))
    unfold decimalValue at ih2 ⊢
    simp only [List.reverse_cons, List.map_append, List.map_cons, List.map_nil,
      List.foldl_append, List.foldl_cons, List.foldl_nil, ih2, hd, Nat.ofDigits_cons]
    omega

theorem fmtUint_isDecimalOf (u : Nat) : IsDecimalOf (fmtUint u) u := by
  rcases Nat.eq_zero_or_pos u with h0 | hu
  · subst h0
    refine ⟨by simp [fmtUint_zero], ?_, fun _ => fmtUint_zero, rfl⟩
    intro c hc
    rw [fmtUint_zero] at hc
    simp only [List.mem_singleton] at hc
    subst hc
    decide
  · have hlt : ∀ d ∈ Nat.digits 10 u, d < 10 := fun d hd => Nat.digits_lt_base (by norm_num) hd
    have hne : Nat.digits 10 u ≠ [] := Nat.digits_ne_nil_iff_ne_zero.mpr (by omega)
    refine ⟨?_, ?_, ?_, ?_⟩
    · rw [fmtUint_pos u hu]; simpa using hne
    · intro c hc
      rw [fmtUint_pos u hu] at hc
      simp only [List.mem_map, List.mem_reverse] at hc
      obtain ⟨d, hd, rfl⟩ := hc
      rw [digitByte_toNat d (hlt d hd)]
      have := hlt d hd
      omega
    · intro hhead
      exfalso
      rw [fmtUint_pos u hu] at hhead
      have hlast := Nat.getLast_digit_ne_zero 10 (by omega : u ≠ 0)
      have hmem := List.getLast_mem hne
      have hl : (Nat.digits 10 u).reverse.head? = some ((Nat.digits 10 u).getLast hne) := by
        rw [List.head?_reverse, List.getLast?_eq_getLast _ hne]
      simp only [List.head?_map, hl, Option.map_some', Option.some.injEq] at hhead
      have h1 := digitByte_toNat _ (hlt _ hmem)
      rw [hhead] at h1
      have h2 : ('0' : Char).toNat = 48 := rfl
      omega
    · rw [fmtUint_pos u hu, decimalValue_digits _ hlt, Nat.ofDigits_digits]

theorem fmtUint_injective (a b : Nat) (h : fmtUint a = fmtUint b) : a = b := by
  have ha := (fmtUint_isDecimalOf a).2.2.2
  have hb := (fmtUint_isDecimalOf b).2.2.2
  rw [h] at ha
  exact ha.symm.trans hb

theorem fmtUint_ne_empty (u : Nat) : fmtUint u ≠ "" := by
  intro h
  exact (fmtUint_isDecimalOf u).1 (by rw [h])

theorem fmtUint_no_minus (u : Nat) : '-' ∉ (fmtUint u).data := by
  intro h
  have := (fmtUint_isDecimalOf u).2.1 _ h
  have h2 : ('-' : Char).toNat = 45 := rfl
  omega

/-- C8: `getProtocol` is a total function with `getProtocol 1 = "TCP"`,
`getProtocol 2 = "UDP"`, `getProtocol 17 = "17"`; for every code other than 1 and 2
the result is the decimal numeral of the code, and the result is never empty. -/
theorem getProtocol_labels (t : Nat) :
    getProtocol 1 = "TCP" ∧ getProtocol 2 = "UDP" ∧ getProtocol 17 = "17" ∧
    (t = 1 ∨ t = 2 ∨ IsDecimalOf (getProtocol t) t) ∧
    getProtocol t ≠ "" := by
  refine ⟨rfl, rfl, by decide, ?_, ?_⟩
  · by_cases h1 : t = 1
    · exact Or.inl h1
    by_cases h2 : t = 2
    · exact Or.inr (Or.inl h2)
    refine Or.inr (Or.inr ?_)
    unfold getProtocol
    rw [if_neg h1, if_neg h2]
    exact fmtUint_isDecimalOf t
  · unfold getProtocol
    split_ifs
    · decide
    · decide
    · exact fmtUint_ne_empty t


/-! ## Lemmas on the dedup key -/

theorem append_cons_cancel (a : Char) (l1 l2 r1 r2 : List Char) (h1 : a ∉ l1) (h2 : a ∉ l2)
    (h : l1 ++ a :: r1 = l2 ++ a :: r2) : l1 = l2 ∧ r1 = r2 := by
  induction l1 generalizing l2 with
  | nil =>
    cases l2 with
    | nil => simpa using h
    | cons y l2 =>
      simp only [List.nil_append, List.cons_append, List.cons.injEq] at h
      exact absurd (h.1 ▸ List.mem_cons_self _ _) h2
  | cons x l1 ih =>
    cases l2 with
    | nil =>
      simp only [List.nil_append, List.cons_append, List.cons.injEq] at h
      exact absurd (h.1 ▸ List.mem_cons_self _ _) h1
    | cons y l2 =>
      simp only [List.cons_append, List.cons.injEq] at h
      obtain ⟨hl, hr⟩ := ih l2 (fun e => h1 (List.mem_cons_of_mem _ e))
        (fun e => h2 (List.mem_cons_of_mem _ e)) h.2
      exact ⟨by rw [h.1, hl], hr⟩

theorem fmtInt_injective (i j : Int) (h : fmtInt i = fmtInt j) : i = j := by
  unfold fmtInt at h
  by_cases hi : i < 0 <;> by_cases hj : j < 0
  · rw [if_pos hi, if_pos hj] at h
    have hd := congrArg String.data h
    simp only [List.cons.injEq, true_and] at hd
    have := fmtUint_injective _ _ (String.ext hd)
    omega
  · rw [if_pos hi, if_neg hj] at h
    have hd : '-' :: (fmtUint i.natAbs).data = (fmtUint j.natAbs).data := congrArg String.data h
    have hm : '-' ∈ (fmtUint j.natAbs).data := by rw [← hd]; exact List.mem_cons_self _ _
    exact absurd hm (fmtUint_no_minus _)
  · rw [if_neg hi, if_pos hj] at h
    have hd : (fmtUint i.natAbs).data = '-' :: (fmtUint j.natAbs).data := congrArg String.data h
    have hm : '-' ∈ (fmtUint i.natAbs).data := by rw [hd]; exact List.mem_cons_self _ _
    exact absurd hm (fmtUint_no_minus _)
  · rw [if_neg hi, if_neg hj] at h
    have := fmtUint_injective _ _ h
    omega

theorem connKey_data (c : ConnectionStat) :
    (connKey c).data = (fmtUint c.LaddrPort).data ++ '-' :: (fmtInt c.Pid).data := by
  unfold connKey
  simp [String.data_append]

theorem connKey_injective (c d : ConnectionStat) (h : connKey c = connKey d) :
    connPair c = connPair d := by
  have hd := congrArg String.data h
  rw [connKey_data, connKey_data] at hd
  obtain ⟨hp, hq⟩ := append_cons_cancel '-' _ _ _ _ (fmtUint_no_minus _) (fmtUint_no_minus _) hd
  unfold connPair
  rw [fmtUint_injective _ _ (String.ext hp), fmtInt_injective _ _ (String.ext hq)]

theorem connKey_eq_iff (c d : ConnectionStat) : connKey c = connKey d ↔ connPair c = connPair d := by
  constructor
  · exact connKey_injective c d
  · intro h
    unfold connPair at h
    simp only [Prod.mk.injEq] at h
    unfold connKey
    rw [h.1, h.2]


/-! ## Lemmas on `GetListeningPorts` -/

theorem fillDetails_fields (uni : Char → Char) (os : OS) (proc : Process) (info : PortInfo)
    (tr : List Call) :
    (fillDetails uni os proc info tr).1.Port = info.Port ∧
    (fillDetails uni os proc info tr).1.Protocol = info.Protocol ∧
    (fillDetails uni os proc info tr).1.PID = info.PID := by
  unfold fillDetails
  simp only []
  split <;> split <;> simp

theorem buildInfo_fields (uni : Char → Char) (os : OS) (c : ConnectionStat) (tr : List Call) :
    (buildInfo uni os c tr).1.Port = (c.LaddrPort : Int) ∧
    (buildInfo uni os c tr).1.Protocol = getProtocol c.Type_ ∧
    (buildInfo uni os c tr).1.PID = c.Pid := by
  unfold buildInfo
  simp only []
  split
  · split
    · exact fillDetails_fields _ _ _ _ _
    · exact ⟨rfl, rfl, rfl⟩
  · exact ⟨rfl, rfl, rfl⟩

theorem portsLoop_eq (uni : Char → Char) (os : OS) (conns : List ConnectionStat)
    (results : List PortInfo) (seen : String → Bool) (tr : List Call)
    (before : List ConnectionStat)
    (hseen : ∀ k, seen k = true ↔ ∃ d ∈ before, connKey d = k) :
    portsLoop uni os conns results seen tr =
      (results ++ (buildAll uni os (firstOccurrencesFrom before (listening conns)) tr).1,
       (buildAll uni os (firstOccurrencesFrom before (listening conns)) tr).2) := by
  induction conns generalizing results seen tr before with
  | nil => simp [portsLoop, listening, firstOccurrencesFrom, buildAll]
  | cons c rest ih =>
    unfold portsLoop
    by_cases hst : c.Status = "LISTEN"
    · have hl : listening (c :: rest) = c :: listening rest := by
        simp [listening, hst]
      have hkey : seen (connKey c) = true ↔ ∃ d ∈ before, connPair d = connPair c := by
        rw [hseen]
        constructor
        · rintro ⟨d, hd, hk⟩; exact ⟨d, hd, connKey_injective d c hk⟩
        · rintro ⟨d, hd, hk⟩; exact ⟨d, hd, (connKey_eq_iff d c).mpr hk⟩
      rw [if_neg (by simpa using hst), hl]
      by_cases hs : seen (connKey c) = true
      · simp only [hs, if_true]
        rw [firstOccurrencesFrom, if_pos (hkey.mp hs)]
        apply ih
        intro k
        rw [hseen]
        constructor
        · rintro ⟨d, hd, hk⟩; exact ⟨d, List.mem_append_left _ hd, hk⟩
        · rintro ⟨d, hd, hk⟩
          rcases List.mem_append.mp hd with hd | hd
          · exact ⟨d, hd, hk⟩
          · simp only [List.mem_singleton] at hd
            subst hd
            exact hk ▸ (hseen _).mp hs
      · simp only [hs, Bool.false_eq_true, if_false]
        rw [firstOccurrencesFrom, if_neg (fun h => hs (hkey.mpr h))]
        rw [ih (results ++ [(buildInfo uni os c tr).1]) _ (buildInfo uni os c tr).2
          (before ++ [c])]
        · simp [buildAll]
        · intro k
          by_cases hk : k = connKey c
          · simp only [hk, if_true, true_iff]
            exact ⟨c, by simp, rfl⟩
          · simp only [hk, if_false]
            rw [hseen]
            constructor
            · rintro ⟨d, hd, hk2⟩; exact ⟨d, List.mem_append_left _ hd, hk2⟩
            · rintro ⟨d, hd, hk2⟩
              rcases List.mem_append.mp hd with hd | hd
              · exact ⟨d, hd, hk2⟩
              · simp only [List.mem_singleton] at hd
                subst hd
                exact absurd hk2.symm hk
    · have hl : listening (c :: rest) = listening rest := by
        simp [listening, hst]
      rw [if_pos (by simpa using hst), hl]
      exact ih results seen tr before hseen

theorem GetListeningPorts_ok (uni : Char → Char) (os : OS) (tr : List Call)
    (conns : List ConnectionStat) (h : os.Connections tr "all" = .ok conns) :
    GetListeningPorts uni os tr =
      (((buildAll uni os (keptConnections conns) (tr ++ [Call.Connections "all"])).1, none),
       (buildAll uni os (keptConnections conns) (tr ++ [Call.Connections "all"])).2) := by
  unfold GetListeningPorts
  rw [h]
  simp only []
  rw [portsLoop_eq uni os conns [] (fun _ => false) _ [] (by simp)]
  simp [keptConnections]

theorem GetListeningPorts_error (uni : Char → Char) (os : OS) (tr : List Call) (e : Error)
    (h : os.Connections tr "all" = .error e) :
    GetListeningPorts uni os tr = (([], some e), tr ++ [Call.Connections "all"]) := by
  unfold GetListeningPorts
  rw [h]




theorem buildAll_length (uni : Char → Char) (os : OS) (cs : List ConnectionStat)
    (tr : List Call) : (buildAll uni os cs tr).1.length = cs.length := by
  induction cs generalizing tr with
  | nil => rfl
  | cons c cs ih => simp [buildAll, ih]

theorem buildAll_triples (uni : Char → Char) (os : OS) (cs : List ConnectionStat)
    (tr : List Call) :
    ((buildAll uni os cs tr).1.map fun r => (r.Port, r.Protocol, r.PID)) =
      cs.map fun c => ((c.LaddrPort : Int), getProtocol c.Type_, c.Pid) := by
  induction cs generalizing tr with
  | nil => rfl
  | cons c cs ih =>
    obtain ⟨h1, h2, h3⟩ := buildInfo_fields uni os c tr
    simp [buildAll, ih, h1, h2, h3]

theorem buildAll_provenance (uni : Char → Char) (os : OS) (cs : List ConnectionStat)
    (tr : List Call) (r : PortInfo) (hr : r ∈ (buildAll uni os cs tr).1) :
    ∃ c ∈ cs, ∃ h : List Call, r = (buildInfo uni os c h).1 := by
  induction cs generalizing tr with
  | nil => simp [buildAll] at hr
  | cons c cs ih =>
    simp only [buildAll, List.mem_cons] at hr
    rcases hr with hr | hr
    · exact ⟨c, List.mem_cons_self _ _, tr, hr⟩
    · obtain ⟨d, hd, h, hh⟩ := ih _ hr
      exact ⟨d, List.mem_cons_of_mem _ hd, h, hh⟩

theorem firstOccurrencesFrom_subset (before l : List ConnectionStat) (c : ConnectionStat)
    (hc : c ∈ firstOccurrencesFrom before l) : c ∈ l := by
  induction l generalizing before with
  | nil => simp [firstOccurrencesFrom] at hc
  | cons x l ih =>
    unfold firstOccurrencesFrom at hc
    split_ifs at hc
    · exact List.mem_cons_of_mem _ (ih _ hc)
    · rcases List.mem_cons.mp hc with hc | hc
      · exact hc ▸ List.mem_cons_self _ _
      · exact List.mem_cons_of_mem _ (ih _ hc)

theorem firstOccurrencesFrom_fresh (before l : List ConnectionStat) (c : ConnectionStat)
    (hc : c ∈ firstOccurrencesFrom before l) : ¬ ∃ d ∈ before, connPair d = connPair c := by
  induction l generalizing before with
  | nil => simp [firstOccurrencesFrom] at hc
  | cons x l ih =>
    have hweak : c ∈ firstOccurrencesFrom (before ++ [x]) l →
        ¬ ∃ d ∈ before, connPair d = connPair c := by
      intro hy ⟨d, hd, hp⟩
      exact ih _ hy ⟨d, List.mem_append_left _ hd, hp⟩
    unfold firstOccurrencesFrom at hc
    split_ifs at hc with hx
    · exact hweak hc
    · rcases List.mem_cons.mp hc with hc | hc
      · exact hc ▸ hx
      · exact hweak hc

theorem firstOccurrencesFrom_nodup (before l : List ConnectionStat) :
    ((firstOccurrencesFrom before l).map connPair).Nodup := by
  induction l generalizing before with
  | nil => simp [firstOccurrencesFrom]
  | cons x l ih =>
    unfold firstOccurrencesFrom
    split_ifs with hx
    · exact ih _
    · rw [List.map_cons, List.nodup_cons]
      refine ⟨?_, ih _⟩
      intro hmem
      obtain ⟨y, hy, hp⟩ := List.mem_map.mp hmem
      exact firstOccurrencesFrom_fresh _ _ y hy ⟨x, by simp, hp.symm⟩

theorem firstOccurrencesFrom_cover (before l : List ConnectionStat) (c : ConnectionStat)
    (hc : c ∈ l) :
    (∃ d ∈ before, connPair d = connPair c) ∨
      connPair c ∈ (firstOccurrencesFrom before l).map connPair := by
  induction l generalizing before with
  | nil => simp at hc
  | cons x l ih =>
    unfold firstOccurrencesFrom
    rcases List.mem_cons.mp hc with hc | hc
    · subst hc
      split_ifs with hx
      · exact Or.inl hx
      · exact Or.inr (by simp)
    · rcases ih (before ++ [x]) hc with ⟨d, hd, hp⟩ | hin
      · rcases List.mem_append.mp hd with hd | hd
        · exact Or.inl ⟨d, hd, hp⟩
        · simp only [List.mem_singleton] at hd
          subst hd
          split_ifs with hx
          · obtain ⟨e, he, hpe⟩ := hx
            exact Or.inl ⟨e, he, hpe.trans hp⟩
          · exact Or.inr (by simp [hp])
      · split_ifs with hx
        · exact Or.inr hin
        · exact Or.inr (by simp only [List.map_cons, List.mem_cons]; exact Or.inr hin)

theorem records_pairs (uni : Char → Char) (os : OS) (cs : List ConnectionStat)
    (tr : List Call) :
    ((buildAll uni os cs tr).1.map fun r => (r.Port, r.PID)) =
      (cs.map connPair).map fun p => ((p.1 : Int), p.2) := by
  have h := congrArg (List.map fun t : Int × String × Int => (t.1, t.2.2))
    (buildAll_triples uni os cs tr)
  simpa [List.map_map, Function.comp_def, connPair] using h

theorem pair_cast_injective :
    Function.Injective (fun p : Nat × Int => (((p.1 : Nat) : Int), p.2)) := by
  rintro ⟨a, b⟩ ⟨c, d⟩ h
  simp only [Prod.mk.injEq, Nat.cast_inj] at h
  exact Prod.ext h.1 h.2


theorem filter_length_eq_one {α β : Type} [DecidableEq β] (f : α → β) (l : List α) (v : β)
    (hn : (l.map f).Nodup) (hm : v ∈ l.map f) :
    (l.filter fun a => decide (f a = v)).length = 1 := by
  induction l with
  | nil => simp at hm
  | cons a l ih =>
    rw [List.map_cons, List.nodup_cons] at hn
    by_cases hv : f a = v
    · have hnone : l.filter (fun a => decide (f a = v)) = [] := by
        rw [List.filter_eq_nil_iff]
        intro b hb hfb
        simp only [decide_eq_true_eq] at hfb
        exact hn.1 (hv ▸ hfb ▸ List.mem_map_of_mem f hb)
      simp [List.filter_cons, hv, hnone]
    · rw [List.map_cons, List.mem_cons] at hm
      rcases hm with hm | hm
      · exact absurd hm.symm hv
      · simp [List.filter_cons, hv, ih hn.2 hm]

/-! ## `GetListeningPorts`: dedup, filter, order and failure -/

/-- C2: the records returned by `GetListeningPorts` carry pairwise distinct
(Port, PID) pairs; when the table is read, every pair carried by at least one
LISTEN entry is carried by exactly one record; and the text key "port-pid" the
dedup set is indexed by determines the pair. -/
theorem GetListeningPorts_pairs_unique (uni : Char → Char) (os : OS) (tr : List Call) :
    ((GetListeningPorts uni os tr).1.1.map fun r => (r.Port, r.PID)).Nodup ∧
    (∀ conns c, os.Connections tr "all" = .ok conns → c ∈ conns → c.Status = "LISTEN" →
      ((GetListeningPorts uni os tr).1.1.filter fun r =>
        decide ((r.Port, r.PID) = ((c.LaddrPort : Int), c.Pid))).length = 1) ∧
    (∀ c d : ConnectionStat, connKey c = connKey d →
      c.LaddrPort = d.LaddrPort ∧ c.Pid = d.Pid) := by
  have hnodup : ∀ conns, os.Connections tr "all" = .ok conns →
      ((GetListeningPorts uni os tr).1.1.map fun r => (r.Port, r.PID)).Nodup := by
    intro conns h
    rw [GetListeningPorts_ok uni os tr conns h, records_pairs]
    exact (firstOccurrencesFrom_nodup _ _).map pair_cast_injective
  refine ⟨?_, ?_, ?_⟩
  · cases h : os.Connections tr "all" with
    | error e => rw [GetListeningPorts_error uni os tr e h]; exact List.nodup_nil
    | ok conns => exact hnodup conns h
  · intro conns c h hc hst
    apply filter_length_eq_one (fun r : PortInfo => (r.Port, r.PID)) _ _ (hnodup conns h)
    rw [GetListeningPorts_ok uni os tr conns h, records_pairs]
    have hl : c ∈ listening conns := by
      simp [listening, hc, hst]
    rcases firstOccurrencesFrom_cover [] (listening conns) c hl with ⟨d, hd, _⟩ | hin
    · simp at hd
    · exact List.mem_map.mpr ⟨connPair c, hin, rfl⟩
  · intro c d h
    have := connKey_injective c d h
    simpa [connPair] using this

/-- Instance of C2 on the sample host, whose table lists the socket (8080, 100)
twice in state LISTEN: exactly one record carries that pair. -/
theorem GetListeningPorts_pairs_unique_witness :
    sampleOS.Connections [] "all" = .ok sampleTable ∧
    ({ Type_ := 1, LaddrPort := 8080, Status := "LISTEN", Pid := 100 } : ConnectionStat)
      ∈ sampleTable ∧
    ((GetListeningPorts id sampleOS []).1.1.filter fun r =>
      decide ((r.Port, r.PID) = ((8080 : Int), (100 : Int)))).length = 1 :=
  ⟨rfl, by decide,
    (GetListeningPorts_pairs_unique id sampleOS []).2.1 sampleTable
      { Type_ := 1, LaddrPort := 8080, Status := "LISTEN", Pid := 100 } rfl (by decide) rfl⟩

/-- C3: when the table is read, the (Port, Protocol, PID) triples of the records
are, in order, those of the LISTEN entries that are the first with their
(port, pid) pair; in particular every record stems from a LISTEN entry of the
table. -/
theorem GetListeningPorts_triples (uni : Char → Char) (os : OS) (tr : List Call)
    (conns : List ConnectionStat) (h : os.Connections tr "all" = .ok conns) :
    ((GetListeningPorts uni os tr).1.1.map fun r => (r.Port, r.Protocol, r.PID)) =
      referenceTriples conns ∧
    (∀ r ∈ (GetListeningPorts uni os tr).1.1, ∃ c ∈ conns, c.Status = "LISTEN" ∧
      r.Port = (c.LaddrPort : Int) ∧ r.Protocol = getProtocol c.Type_ ∧ r.PID = c.Pid) := by
  rw [GetListeningPorts_ok uni os tr conns h]
  refine ⟨buildAll_triples _ _ _ _, ?_⟩
  intro r hr
  obtain ⟨c, hc, hist, rfl⟩ := buildAll_provenance _ _ _ _ r hr
  have hl : c ∈ listening conns := firstOccurrencesFrom_subset _ _ c hc
  simp only [listening, List.mem_filter, decide_eq_true_eq] at hl
  exact ⟨c, hl.1, hl.2, buildInfo_fields uni os c hist⟩

/-- Instance of C3 on the sample host: the duplicate and the established
connection leave no record, the order of the table is kept. -/
theorem GetListeningPorts_triples_witness :
    sampleOS.Connections [] "all" = .ok sampleTable ∧
    ((GetListeningPorts id sampleOS []).1.1.map fun r => (r.Port, r.Protocol, r.PID)) =
      [(8080, "TCP", 100), (5432, "TCP", 200), (53, "UDP", 300), (68, "17", 0)] :=
  ⟨rfl, (GetListeningPorts_triples id sampleOS [] sampleTable rfl).1.trans (by decide)⟩

/-- C9: `GetListeningPorts` fails exactly when the connection-table query fails.
A failing query is returned as the error together with the nil record list; a
successful query gives a nil error whatever the per-process queries answer. -/
theorem GetListeningPorts_fails_iff (uni : Char → Char) (os : OS) (tr : List Call) :
    (∀ e, os.Connections tr "all" = .error e →
      (GetListeningPorts uni os tr).1 = ([], some e)) ∧
    (∀ conns, os.Connections tr "all" = .ok conns →
      (GetListeningPorts uni os tr).1.2 = none) ∧
    ((GetListeningPorts uni os tr).1.2 ≠ none ↔ ∃ e, os.Connections tr "all" = .error e) := by
  refine ⟨?_, ?_, ?_⟩
  · intro e h; rw [GetListeningPorts_error uni os tr e h]
  · intro conns h; rw [GetListeningPorts_ok uni os tr conns h]
  · cases h : os.Connections tr "all" with
    | error e => rw [GetListeningPorts_error uni os tr e h]; simp
    | ok conns => rw [GetListeningPorts_ok uni os tr conns h]; simp

/-- Instance of C9: the locked host yields the query error and no records, the
sample host yields no error although process 200 cannot be inspected. -/
theorem GetListeningPorts_fails_iff_witness :
    (lockedOS.Connections [] "all" = .error "permission denied" ∧
      (GetListeningPorts id lockedOS []).1 = ([], some "permission denied")) ∧
    (sampleOS.Connections [] "all" = .ok sampleTable ∧
      (GetListeningPorts id sampleOS []).1.2 = none) :=
  ⟨⟨rfl, (GetListeningPorts_fails_iff id lockedOS []).1 "permission denied" rfl⟩,
   ⟨rfl, (GetListeningPorts_fails_iff id sampleOS []).2.1 sampleTable rfl⟩⟩


/-! ## The record of one connection -/

theorem buildInfo_skip (uni : Char → Char) (os : OS) (c : ConnectionStat) (h : List Call)
    (hpid : c.Pid ≤ 0) : buildInfo uni os c h = (bareInfo c, h) := by
  unfold buildInfo bareInfo
  simp only []
  rw [if_neg (by omega)]

theorem buildInfo_closed (uni : Char → Char) (os : OS) (c : ConnectionStat) (h : List Call)
    (e : Error) (hpid : c.Pid > 0) (herr : os.NewProcess h c.Pid = .error e) :
    buildInfo uni os c h = (bareInfo c, h ++ [Call.NewProcess c.Pid]) := by
  unfold buildInfo bareInfo
  simp only []
  rw [if_pos hpid, herr]

theorem buildInfo_open (uni : Char → Char) (os : OS) (c : ConnectionStat) (h : List Call)
    (proc : Process) (hpid : c.Pid > 0) (hok : os.NewProcess h c.Pid = .ok proc) :
    buildInfo uni os c h = fillDetails uni os proc (bareInfo c) (h ++ [Call.NewProcess c.Pid]) := by
  unfold buildInfo bareInfo
  simp only []
  rw [if_pos hpid, hok]

theorem fillDetails_user (uni : Char → Char) (os : OS) (proc : Process) (info : PortInfo)
    (tr : List Call) :
    (fillDetails uni os proc info tr).1.User =
      if (queryUsername os proc tr).1 = "" then "unknown" else (queryUsername os proc tr).1 := by
  unfold fillDetails
  simp only []
  split <;> split <;> simp

theorem fillDetails_language (uni : Char → Char) (os : OS) (proc : Process) (info : PortInfo)
    (tr : List Call) : (fillDetails uni os proc info tr).1.Language ∈ languageLabels := by
  unfold fillDetails
  simp only []
  split <;> exact guessLanguage_mem_labels _ _ _

theorem languageLabels_ne_empty (s : String) (h : s ∈ languageLabels) : s ≠ "" := by
  intro e
  subst e
  revert h
  decide

theorem getProtocol_ne_empty (t : Nat) : getProtocol t ≠ "" := by
  unfold getProtocol
  split_ifs
  · decide
  · decide
  · exact fmtUint_ne_empty t


/-- C4: every record of a snapshot is the record `buildInfo` makes for a LISTEN
entry, and for a connection with pid > 0 whose process handle opens the User of
that record follows the two-tier resolution.  When the primary query fails and
the user-id query returns a non-empty list whose first id the user database
resolves to a non-empty name, User is that name; when the primary query fails and
the user-id query fails, returns no id, or the lookup fails, User is "unknown";
and whenever the resolved name is empty (from the primary query or from the
lookup), User is "unknown".  A non-empty primary answer is used as it is, so User
is never empty. -/
theorem username_fallback (uni : Char → Char) (os : OS) :
    (∀ (tr : List Call) (conns : List ConnectionStat), os.Connections tr "all" = .ok conns →
      ∀ r ∈ (GetListeningPorts uni os tr).1.1, ∃ c ∈ conns, ∃ h : List Call,
        c.Status = "LISTEN" ∧ r = (buildInfo uni os c h).1) ∧
    (∀ (c : ConnectionStat) (tr : List Call) (proc : Process), c.Pid > 0 →
      os.NewProcess tr c.Pid = .ok proc →
      (∀ e uid rest u,
        os.Username (tr ++ [Call.NewProcess c.Pid]) proc = .error e →
        os.Uids (tr ++ [Call.NewProcess c.Pid] ++ [Call.Username proc]) proc =
          .ok (uid :: rest) →
        os.LookupId (tr ++ [Call.NewProcess c.Pid] ++ [Call.Username proc] ++ [Call.Uids proc])
          (fmtInt uid) = .ok u →
        (u.Username ≠ "" → (buildInfo uni os c tr).1.User = u.Username) ∧
        (u.Username = "" → (buildInfo uni os c tr).1.User = "unknown")) ∧
      (∀ e e2,
        os.Username (tr ++ [Call.NewProcess c.Pid]) proc = .error e →
        os.Uids (tr ++ [Call.NewProcess c.Pid] ++ [Call.Username proc]) proc = .error e2 →
        (buildInfo uni os c tr).1.User = "unknown") ∧
      (∀ e,
        os.Username (tr ++ [Call.NewProcess c.Pid]) proc = .error e →
        os.Uids (tr ++ [Call.NewProcess c.Pid] ++ [Call.Username proc]) proc = .ok [] →
        (buildInfo uni os c tr).1.User = "unknown") ∧
      (∀ e uid rest e3,
        os.Username (tr ++ [Call.NewProcess c.Pid]) proc = .error e →
        os.Uids (tr ++ [Call.NewProcess c.Pid] ++ [Call.Username proc]) proc =
          .ok (uid :: rest) →
        os.LookupId (tr ++ [Call.NewProcess c.Pid] ++ [Call.Username proc] ++ [Call.Uids proc])
          (fmtInt uid) = .error e3 →
        (buildInfo uni os c tr).1.User = "unknown") ∧
      (∀ name,
        os.Username (tr ++ [Call.NewProcess c.Pid]) proc = .ok name →
        (name ≠ "" → (buildInfo uni os c tr).1.User = name) ∧
        (name = "" → (buildInfo uni os c tr).1.User = "unknown")) ∧
      (buildInfo uni os c tr).1.User ≠ "") := by
  constructor
  · intro tr conns hq r hr
    rw [GetListeningPorts_ok uni os tr conns hq] at hr
    obtain ⟨c, hc, h, hrec⟩ := buildAll_provenance _ _ _ _ r hr
    have hl : c ∈ listening conns := firstOccurrencesFrom_subset _ _ c hc
    simp only [listening, List.mem_filter, decide_eq_true_eq] at hl
    exact ⟨c, hl.1, h, hl.2, hrec⟩
  intro c tr proc hpid hopen
  rw [buildInfo_open uni os c tr proc hpid hopen, fillDetails_user]
  refine ⟨?_, ?_, ?_, ?_, ?_, ?_⟩
  · intro e uid rest u h1 h2 h3
    have hq : (queryUsername os proc (tr ++ [Call.NewProcess c.Pid])).1 = u.Username := by
      unfold queryUsername
      simp only [h1, h2, h3]
    rw [hq]
    exact ⟨fun hne => if_neg hne, fun he => if_pos he⟩
  · intro e e2 h1 h2
    have hq : (queryUsername os proc (tr ++ [Call.NewProcess c.Pid])).1 = "" := by
      unfold queryUsername
      simp only [h1, h2]
    rw [hq]; rfl
  · intro e h1 h2
    have hq : (queryUsername os proc (tr ++ [Call.NewProcess c.Pid])).1 = "" := by
      unfold queryUsername
      simp only [h1, h2]
    rw [hq]; rfl
  · intro e uid rest e3 h1 h2 h3
    have hq : (queryUsername os proc (tr ++ [Call.NewProcess c.Pid])).1 = "" := by
      unfold queryUsername
      simp only [h1, h2, h3]
    rw [hq]; rfl
  · intro name h1
    have hq : (queryUsername os proc (tr ++ [Call.NewProcess c.Pid])).1 = name := by
      unfold queryUsername
      simp only [h1]
    rw [hq]
    exact ⟨fun hne => if_neg hne, fun he => if_pos he⟩
  · split_ifs with h
    · decide
    · exact h

/-- Instance of C4 on the sample host: process 300 has no direct user name, its
first user id 1001 resolves to "bob", and the record of its socket carries "bob";
process 400 has neither a direct user name nor readable user ids, and the record
of a socket it owns carries "unknown". -/
theorem username_fallback_witness :
    ((300 : Int) > 0 ∧ sampleOS.NewProcess [] 300 = .ok ⟨300⟩) ∧
    (sampleOS.Username ([] ++ [Call.NewProcess 300]) ⟨300⟩ = .error "user: unknown userid" ∧
      sampleOS.Uids ([] ++ [Call.NewProcess 300] ++ [Call.Username ⟨300⟩]) ⟨300⟩ =
        .ok [1001, 1001] ∧
      sampleOS.LookupId
        ([] ++ [Call.NewProcess 300] ++ [Call.Username ⟨300⟩] ++ [Call.Uids ⟨300⟩])
        (fmtInt 1001) = .ok ⟨"bob"⟩) ∧
    (buildInfo id sampleOS { Type_ := 2, LaddrPort := 53, Status := "LISTEN", Pid := 300 }
      []).1.User = "bob" ∧
    (buildInfo id sampleOS { Type_ := 1, LaddrPort := 9000, Status := "LISTEN", Pid := 400 }
      []).1.User = "unknown" :=
  ⟨⟨by decide, rfl⟩, ⟨rfl, rfl, rfl⟩,
    (((username_fallback id sampleOS).2
      { Type_ := 2, LaddrPort := 53, Status := "LISTEN", Pid := 300 } [] ⟨300⟩
      (by decide) rfl).1 "user: unknown userid" 1001 [1001] ⟨"bob"⟩ rfl rfl rfl).1
      (by decide),
    ((username_fallback id sampleOS).2
      { Type_ := 1, LaddrPort := 9000, Status := "LISTEN", Pid := 400 } [] ⟨400⟩
      (by decide) rfl).2.1 "user: unknown userid" "not available" rfl rfl⟩

/-- C5, refuted as stated: on a host whose table holds one listening socket
without owning process (pid 0), the single record has the empty Language, not
"System/Binary". -/
theorem language_empty_without_process :
    (GetListeningPorts id kernelSocketOS []).1 =
      ([{ Port := 68, Protocol := "UDP", PID := 0, User := "", Command := "",
          Language := "" }], none) ∧
    ¬ (∀ r ∈ (GetListeningPorts id kernelSocketOS []).1.1,
        r.Protocol ≠ "" ∧ r.Language ≠ "" ∧ (r.PID ≤ 0 → r.Language = "System/Binary")) := by
  refine ⟨by decide, ?_⟩
  intro h
  have h1 := h { Port := 68, Protocol := "UDP", PID := 0, User := "", Command := "",
                 Language := "" } (by decide)
  exact h1.2.1 rfl

/-- C5, amended: every record has a non-empty Protocol, and its Language is
either empty or one of the ten labels.  The record of a connection with pid > 0
whose process handle opens has a Language among the ten labels, hence non-empty;
for a connection with pid <= 0 process resolution is skipped without any call, and
User, Command and Language stay empty, as they do when the handle cannot be
opened. -/
theorem records_protocol_language (uni : Char → Char) (os : OS) (tr : List Call) :
    (∀ r ∈ (GetListeningPorts uni os tr).1.1,
      r.Protocol ≠ "" ∧ (r.Language = "" ∨ r.Language ∈ languageLabels) ∧
      (r.PID ≤ 0 → r.User = "" ∧ r.Command = "" ∧ r.Language = "")) ∧
    (∀ (c : ConnectionStat) (h : List Call), c.Pid ≤ 0 →
      buildInfo uni os c h = (bareInfo c, h)) ∧
    (∀ (c : ConnectionStat) (h : List Call) (e : Error), c.Pid > 0 →
      os.NewProcess h c.Pid = .error e → (buildInfo uni os c h).1 = bareInfo c) ∧
    (∀ (c : ConnectionStat) (h : List Call) (proc : Process), c.Pid > 0 →
      os.NewProcess h c.Pid = .ok proc →
      (buildInfo uni os c h).1.Language ∈ languageLabels ∧
      (buildInfo uni os c h).1.Language ≠ "") := by
  have hopen : ∀ (c : ConnectionStat) (h : List Call) (proc : Process), c.Pid > 0 →
      os.NewProcess h c.Pid = .ok proc →
      (buildInfo uni os c h).1.Language ∈ languageLabels := by
    intro c h proc hpid hok
    rw [buildInfo_open uni os c h proc hpid hok]
    exact fillDetails_language _ _ _ _ _
  refine ⟨?_, fun c h hpid => buildInfo_skip uni os c h hpid,
    fun c h e hpid herr => by rw [buildInfo_closed uni os c h e hpid herr],
    fun c h proc hpid hok =>
      ⟨hopen c h proc hpid hok, languageLabels_ne_empty _ (hopen c h proc hpid hok)⟩⟩
  intro r hr
  cases hq : os.Connections tr "all" with
  | error e =>
    rw [GetListeningPorts_error uni os tr e hq] at hr
    simp at hr
  | ok conns =>
    rw [GetListeningPorts_ok uni os tr conns hq] at hr
    obtain ⟨c, _, h, rfl⟩ := buildAll_provenance _ _ _ _ r hr
    obtain ⟨_, hproto, hp⟩ := buildInfo_fields uni os c h
    refine ⟨by rw [hproto]; exact getProtocol_ne_empty _, ?_, ?_⟩
    · by_cases hpid : c.Pid > 0
      · cases hn : os.NewProcess h c.Pid with
        | error e => rw [buildInfo_closed uni os c h e hpid hn]; exact Or.inl rfl
        | ok proc => exact Or.inr (hopen c h proc hpid hn)
      · rw [buildInfo_skip uni os c h (by omega)]; exact Or.inl rfl
    · intro hle
      rw [hp] at hle
      rw [buildInfo_skip uni os c h hle]
      exact ⟨rfl, rfl, rfl⟩

/-- Instance of the amended C5 on the sample host: the socket of process 100,
whose handle opens, is labelled "Python"; the socket without process keeps the
empty fields. -/
theorem records_protocol_language_witness :
    ((100 : Int) > 0 ∧ sampleOS.NewProcess [] 100 = .ok ⟨100⟩ ∧
      (buildInfo id sampleOS { Type_ := 1, LaddrPort := 8080, Status := "LISTEN", Pid := 100 }
        []).1.Language ≠ "") ∧
    ((0 : Int) ≤ 0 ∧
      buildInfo id sampleOS { Type_ := 17, LaddrPort := 68, Status := "LISTEN", Pid := 0 } [] =
        (bareInfo { Type_ := 17, LaddrPort := 68, Status := "LISTEN", Pid := 0 }, [])) :=
  ⟨⟨by decide, rfl,
     ((records_protocol_language id sampleOS []).2.2.2
       { Type_ := 1, LaddrPort := 8080, Status := "LISTEN", Pid := 100 } [] ⟨100⟩
       (by decide) rfl).2⟩,
   ⟨by decide,
     (records_protocol_language id sampleOS []).2.1
       { Type_ := 17, LaddrPort := 68, Status := "LISTEN", Pid := 0 } [] (by decide)⟩⟩


/-- C6, refuted as stated: on a host whose only listening socket belongs to a
process that cannot be opened, the snapshot succeeds with one record, whose User
is the empty string, not "unknown". -/
theorem user_empty_when_handle_fails :
    exitedProcessOS.NewProcess [Call.Connections "all"] 200 = .error "process does not exist" ∧
    (GetListeningPorts id exitedProcessOS []).1 =
      ([{ Port := 5432, Protocol := "TCP", PID := 200, User := "", Command := "",
          Language := "" }], none) ∧
    ¬ (∀ r ∈ (GetListeningPorts id exitedProcessOS []).1.1,
        r.User = "unknown" ∧ r.Command = "") := by
  refine ⟨rfl, by decide, ?_⟩
  intro h
  have h1 := h { Port := 5432, Protocol := "TCP", PID := 200, User := "", Command := "",
                 Language := "" } (by decide)
  exact absurd h1.1 (by decide)

/-- C6, amended: whatever the per-process queries answer, a snapshot whose table
is read succeeds, and its records are, in order, the records built one by one for
the kept connections, so there is one record per kept connection and every LISTEN
entry has a record with its port and pid.  When the handle of a connection with
pid > 0 cannot be opened, its record is the bare one: User, Command and Language
are the empty string, and only the failed `NewProcess` call is made. -/
theorem handle_failure_isolated (uni : Char → Char) (os : OS) (tr : List Call)
    (conns : List ConnectionStat) (hq : os.Connections tr "all" = .ok conns) :
    (GetListeningPorts uni os tr).1.2 = none ∧
    (GetListeningPorts uni os tr).1.1 =
      (buildAll uni os (keptConnections conns) (tr ++ [Call.Connections "all"])).1 ∧
    (GetListeningPorts uni os tr).1.1.length = (keptConnections conns).length ∧
    (∀ c ∈ conns, c.Status = "LISTEN" →
      ∃ r ∈ (GetListeningPorts uni os tr).1.1, r.Port = (c.LaddrPort : Int) ∧ r.PID = c.Pid) ∧
    (∀ (c : ConnectionStat) (h : List Call) (e : Error), c.Pid > 0 →
      os.NewProcess h c.Pid = .error e →
      buildInfo uni os c h = (bareInfo c, h ++ [Call.NewProcess c.Pid]) ∧
      (buildInfo uni os c h).1.User = "" ∧ (buildInfo uni os c h).1.Command = "" ∧
      (buildInfo uni os c h).1.Language = "") := by
  rw [GetListeningPorts_ok uni os tr conns hq]
  refine ⟨rfl, rfl, buildAll_length _ _ _ _, ?_, ?_⟩
  · intro c hc hst
    have hl : c ∈ listening conns := by simp [listening, hc, hst]
    rcases firstOccurrencesFrom_cover [] (listening conns) c hl with ⟨d, hd, _⟩ | hin
    · simp at hd
    · have hmem : ((c.LaddrPort : Int), c.Pid) ∈
          ((buildAll uni os (keptConnections conns) (tr ++ [Call.Connections "all"])).1.map
            fun r => (r.Port, r.PID)) := by
        rw [records_pairs]
        exact List.mem_map.mpr ⟨connPair c, hin, rfl⟩
      obtain ⟨r, hr, hp⟩ := List.mem_map.mp hmem
      simp only [Prod.mk.injEq] at hp
      exact ⟨r, hr, hp.1, hp.2⟩
  · intro c h e hpid herr
    rw [buildInfo_closed uni os c h e hpid herr]
    exact ⟨rfl, rfl, rfl, rfl⟩

/-- Instance of the amended C6: three distinct listening sockets, inspection
failing for the second only, give three records, of which the second alone is
bare. -/
theorem handle_failure_isolated_witness :
    threeSocketOS.Connections [] "all" = .ok threeSocketTable ∧
    (GetListeningPorts id threeSocketOS []).1.1.length = 3 ∧
    (GetListeningPorts id threeSocketOS []).1.1 =
      [ { Port := 8080, Protocol := "TCP", PID := 100, User := "alice", Command := "python3",
          Language := "Python" },
        { Port := 5432, Protocol := "TCP", PID := 200, User := "", Command := "",
          Language := "" },
        { Port := 53, Protocol := "UDP", PID := 300, User := "bob", Command := "dnsmasq",
          Language := "System/Binary" } ] :=
  ⟨rfl, (handle_failure_isolated id threeSocketOS [] threeSocketTable rfl).2.2.1.trans
      (by decide),
    (handle_failure_isolated id threeSocketOS [] threeSocketTable rfl).2.1.trans (by decide)⟩

/-! ## `KillProcess` -/

/-- C7: when the handle of `pid` cannot be resolved, `KillProcess` returns that
failure and makes no kill request; otherwise it makes exactly one kill request
and returns its outcome unchanged.  It returns nil exactly when the handle
resolved and that one request succeeded. -/
theorem KillProcess_outcome (os : OS) (pid : Int) (tr : List Call) :
    (∀ e, os.NewProcess tr pid = .error e →
      KillProcess os pid tr = (some e, tr ++ [Call.NewProcess pid])) ∧
    (∀ proc, os.NewProcess tr pid = .ok proc →
      KillProcess os pid tr =
        (os.Kill (tr ++ [Call.NewProcess pid]) proc,
         tr ++ [Call.NewProcess pid] ++ [Call.Kill proc])) ∧
    ((KillProcess os pid tr).1 = none ↔
      ∃ proc, os.NewProcess tr pid = .ok proc ∧
        os.Kill (tr ++ [Call.NewProcess pid]) proc = none) := by
  refine ⟨?_, ?_, ?_⟩
  · intro e h; unfold KillProcess; rw [h]
  · intro proc h; unfold KillProcess; rw [h]
  · unfold KillProcess
    cases h : os.NewProcess tr pid with
    | error e => simp
    | ok proc => simp

/-- Instance of C7 on the sample host: process 200 cannot be resolved, process 300
may not be killed, process 100 is killed. -/
theorem KillProcess_outcome_witness :
    (sampleOS.NewProcess [] 200 = .error "process does not exist" ∧
      KillProcess sampleOS 200 [] = (some "process does not exist", [Call.NewProcess 200])) ∧
    (sampleOS.NewProcess [] 300 = .ok ⟨300⟩ ∧
      KillProcess sampleOS 300 [] =
        (some "operation not permitted", [Call.NewProcess 300, Call.Kill ⟨300⟩])) ∧
    (sampleOS.NewProcess [] 100 = .ok ⟨100⟩ ∧
      KillProcess sampleOS 100 [] = (none, [Call.NewProcess 100, Call.Kill ⟨100⟩])) :=
  ⟨⟨rfl, (KillProcess_outcome sampleOS 200 []).1 "process does not exist" rfl⟩,
   ⟨rfl, (KillProcess_outcome sampleOS 300 []).2.1 ⟨300⟩ rfl⟩,
   ⟨rfl, (KillProcess_outcome sampleOS 100 []).2.1 ⟨100⟩ rfl⟩⟩


/-! ## The kill dialog -/

theorem updateTableRows_rows (w : Widgets) (m : model) : RowsMatch (updateTableRows w m) := by
  unfold RowsMatch updateTableRows
  simp only []

theorem updateTableRows_dialog (w : Widgets) (m : model) :
    (updateTableRows w m).showModal = m.showModal ∧
    (updateTableRows w m).selectedPort = m.selectedPort := ⟨rfl, rfl⟩

theorem handleHeaderClick_rows (w : Widgets) (m : model) (x : Int) (h : RowsMatch m) :
    RowsMatch (handleHeaderClick w m x) := by
  unfold handleHeaderClick
  simp only []
  split_ifs
  · exact updateTableRows_rows w _
  · exact updateTableRows_rows w _
  · exact h

theorem handleHeaderClick_dialog (w : Widgets) (m : model) (x : Int) :
    (handleHeaderClick w m x).showModal = m.showModal ∧
    (handleHeaderClick w m x).selectedPort = m.selectedPort := by
  unfold handleHeaderClick
  simp only []
  split_ifs <;> exact ⟨rfl, rfl⟩

theorem updateTail_rows (w : Widgets) (m : model) (msg : Msg) (h : RowsMatch m) :
    RowsMatch (updateTail w m msg).1 := by
  unfold updateTail
  split_ifs
  · exact h
  · exact h

theorem updateTail_modal (w : Widgets) (m : model) (msg : Msg) (h : m.showModal = true) :
    updateTail w m msg = (m, Cmd.none) := by
  unfold updateTail
  simp [h]

theorem Update_rows (w : Widgets) (os : OS) (m : model) (msg : Msg) (tr : List Call)
    (h : RowsMatch m) : RowsMatch (Update w os m msg tr).1.1 := by
  unfold Update
  cases msg with
  | Key s =>
    simp only []
    split_ifs
    · split <;> (try split) <;> exact h
    · exact h
    · exact h
    · exact updateTail_rows w m _ h
    · exact updateTableRows_rows w _
    · exact updateTableRows_rows w _
    · exact h
    · exact h
    · exact h
    · exact updateTableRows_rows w _
    · exact h
    · exact h
    · exact h
    · exact h
    · exact h
    · exact updateTail_rows w m _ h
  | Mouse release left X Y =>
    simp only []
    apply updateTail_rows
    split_ifs
    · exact handleHeaderClick_rows w m X h
    · exact h
    · exact h
  | WindowSize Width Height => exact updateTail_rows w _ _ h
  | ports ps => exact updateTail_rows w _ _ (updateTableRows_rows w _)
  | tick => simp only []; split_ifs <;> exact h
  | err e => exact h
  | other => exact updateTail_rows w m _ h


theorem runUpdates_rows (w : Widgets) (os : OS) (m : model) (msgs : List (Msg × List Call))
    (h : RowsMatch m) : RowsMatch (runUpdates w os m msgs) := by
  induction msgs generalizing m with
  | nil => exact h
  | cons x rest ih =>
    obtain ⟨msg, tr⟩ := x
    exact ih _ (Update_rows w os m msg tr h)

theorem Update_dialog_keep (w : Widgets) (os : OS) (m : model) (msg : Msg) (tr : List Call)
    (sel : PortInfo) (h : DialogOn sel m) (hc : ¬ confirmKey msg) (hx : ¬ cancelKey msg) :
    DialogOn sel (Update w os m msg tr).1.1 ∧ (Update w os m msg tr).2 = tr := by
  obtain ⟨hm, hs⟩ := h
  unfold Update
  cases msg with
  | Key s =>
    have h1 : ¬ (s = "y" ∨ s = "Y" ∨ s = "enter") := by
      intro h
      apply hc
      rcases h with h | h | h <;> subst h
      · exact Or.inl rfl
      · exact Or.inr (Or.inl rfl)
      · exact Or.inr (Or.inr rfl)
    have h2 : ¬ (s = "n" ∨ s = "N" ∨ s = "esc") := by
      intro h
      apply hx
      rcases h with h | h | h <;> subst h
      · exact Or.inl rfl
      · exact Or.inr (Or.inl rfl)
      · exact Or.inr (Or.inr rfl)
    simp only [hm, if_true, if_neg h1, if_neg h2]
    split_ifs
    · exact ⟨⟨hm, hs⟩, rfl⟩
    · rw [updateTail_modal w m _ hm]
      exact ⟨⟨hm, hs⟩, rfl⟩
  | Mouse release left X Y =>
    simp only []
    have hd : ∀ m2 : model, m2.showModal = true → m2.selectedPort = some sel →
        DialogOn sel (updateTail w m2 (Msg.Mouse release left X Y)).1 := by
      intro m2 h2 h3
      rw [updateTail_modal w m2 _ h2]
      exact ⟨h2, h3⟩
    refine ⟨?_, trivial⟩
    split_ifs
    · obtain ⟨e1, e2⟩ := handleHeaderClick_dialog w m X
      exact hd _ (e1.trans hm) (e2.trans hs)
    · exact hd _ hm hs
    · exact hd _ hm hs
  | WindowSize Width Height =>
    simp only []
    rw [updateTail_modal w _ _ (by exact hm)]
    exact ⟨⟨hm, hs⟩, trivial⟩
  | ports ps =>
    simp only []
    rw [updateTail_modal w _ _ (by exact hm)]
    exact ⟨⟨hm, hs⟩, trivial⟩
  | tick =>
    simp only []
    split_ifs <;> exact ⟨⟨hm, hs⟩, rfl⟩
  | err e => exact ⟨⟨hm, hs⟩, rfl⟩
  | other =>
    simp only []
    rw [updateTail_modal w m _ hm]
    exact ⟨⟨hm, hs⟩, trivial⟩

theorem runUpdates_dialog_keep (w : Widgets) (os : OS) (m : model)
    (msgs : List (Msg × List Call)) (sel : PortInfo) (h : DialogOn sel m)
    (hmsgs : ∀ x ∈ msgs, ¬ confirmKey x.1 ∧ ¬ cancelKey x.1) :
    DialogOn sel (runUpdates w os m msgs) := by
  induction msgs generalizing m with
  | nil => exact h
  | cons x rest ih =>
    obtain ⟨msg, tr⟩ := x
    have hx := hmsgs (msg, tr) (List.mem_cons_self _ _)
    exact ih _ (Update_dialog_keep w os m msg tr sel h hx.1 hx.2).1
      (fun y hy => hmsgs y (List.mem_cons_of_mem _ hy))

theorem Update_open_dialog (w : Widgets) (os : OS) (m : model) (tr : List Call) (i : Nat)
    (sel : PortInfo) (hm : m.showModal = false) (hs : m.searching = false)
    (hcur : m.table.cursor = (i : Int)) (hsel : m.filteredPorts[i]? = some sel) :
    DialogOn sel (Update w os m (Msg.Key "ctrl+d") tr).1.1 ∧
    (Update w os m (Msg.Key "ctrl+d") tr).2 = tr := by
  have hlt : i < m.filteredPorts.length := by
    by_contra hge
    rw [List.getElem?_eq_none (by omega)] at hsel
    exact absurd hsel (by simp)
  unfold Update
  simp only [hm, hs, Bool.false_eq_true, if_false]
  rw [if_neg (by decide), if_neg (by decide), if_neg (by decide), if_pos trivial,
    if_pos (by omega), if_pos (by rw [hcur]; omega)]
  refine ⟨⟨rfl, ?_⟩, rfl⟩
  simp only [hcur, Int.toNat_ofNat, hsel]

theorem Update_confirm (w : Widgets) (os : OS) (m : model) (tr : List Call) (k : String)
    (sel : PortInfo) (h : DialogOn sel m) (hk : k = "y" ∨ k = "Y" ∨ k = "enter") :
    (Update w os m (Msg.Key k) tr).2 = (KillProcess os sel.PID tr).2 ∧
    (Update w os m (Msg.Key k) tr).1.1.statusMessage =
      (match (KillProcess os sel.PID tr).1 with
        | some e => "Error killing process: " ++ e
        | none => "Killed process " ++ fmtInt sel.PID) ∧
    (Update w os m (Msg.Key k) tr).1.1.showModal = false ∧
    (Update w os m (Msg.Key k) tr).1.1.selectedPort = none ∧
    (Update w os m (Msg.Key k) tr).1.2 = Cmd.refreshPorts := by
  obtain ⟨hm, hs⟩ := h
  unfold Update
  simp only [hm, if_true, if_pos hk, hs]
  rcases hkill : KillProcess os sel.PID tr with ⟨_ | e, tr2⟩ <;> simp


/-- C10: the kill dialog kills the process the operator selected.  From the
initial model, after every sequence of messages the table rows are the rendering,
in order, of `filteredPorts`, and every single `Update` keeps it so; ctrl+d in
normal mode with the cursor on index `i` of `filteredPorts` opens the dialog on
`filteredPorts[i]`; and after any messages that are neither a confirm nor a
cancel key the dialog is still open on that record, so that a confirming key
runs `KillProcess` on the PID of that record. -/
theorem kill_dialog_targets_selection (w : Widgets) (os : OS) :
    (∀ msgs, RowsMatch (runUpdates w os initialModel msgs)) ∧
    (∀ m msg tr, RowsMatch m → RowsMatch (Update w os m msg tr).1.1) ∧
    (∀ (m : model) (tr : List Call) (i : Nat) (sel : PortInfo),
      m.showModal = false → m.searching = false → m.table.cursor = (i : Int) →
      m.filteredPorts[i]? = some sel →
      (Update w os m (Msg.Key "ctrl+d") tr).1.1.selectedPort = some sel ∧
      (Update w os m (Msg.Key "ctrl+d") tr).1.1.showModal = true) ∧
    (∀ (m : model) (tr tr2 : List Call) (i : Nat) (sel : PortInfo)
      (msgs : List (Msg × List Call)) (k : String),
      m.showModal = false → m.searching = false → m.table.cursor = (i : Int) →
      m.filteredPorts[i]? = some sel →
      (∀ x ∈ msgs, ¬ confirmKey x.1 ∧ ¬ cancelKey x.1) →
      (k = "y" ∨ k = "Y" ∨ k = "enter") →
      (runUpdates w os (Update w os m (Msg.Key "ctrl+d") tr).1.1 msgs).selectedPort = some sel ∧
      (Update w os (runUpdates w os (Update w os m (Msg.Key "ctrl+d") tr).1.1 msgs)
        (Msg.Key k) tr2).2 = (KillProcess os sel.PID tr2).2) := by
  refine ⟨fun msgs => runUpdates_rows w os _ msgs rfl,
    fun m msg tr h => Update_rows w os m msg tr h, ?_, ?_⟩
  · intro m tr i sel hm hs hcur hsel
    obtain ⟨⟨h1, h2⟩, _⟩ := Update_open_dialog w os m tr i sel hm hs hcur hsel
    exact ⟨h2, h1⟩
  · intro m tr tr2 i sel msgs k hm hs hcur hsel hmsgs hk
    have hopen := (Update_open_dialog w os m tr i sel hm hs hcur hsel).1
    have hkeep := runUpdates_dialog_keep w os _ msgs sel hopen hmsgs
    exact ⟨hkeep.2, (Update_confirm w os _ tr2 k sel hkeep hk).1⟩

/-- Instance of C10: the operator selects the first row (process 100); a tick, a
refresh in another order, a re-sort, a resize and a stray key later, "y" still
asks the host to kill process 100. -/
theorem kill_dialog_targets_selection_witness :
    ((runUpdates plainWidgets sampleOS initialModel [(Msg.ports sampleRecords, [])]).table.cursor
        = ((0 : Nat) : Int) ∧
      (runUpdates plainWidgets sampleOS initialModel
        [(Msg.ports sampleRecords, [])]).filteredPorts[0]? = some pythonRecord ∧
      pythonRecord.PID = 100 ∧
      (∀ x ∈ sampleInterlude, ¬ confirmKey x.1 ∧ ¬ cancelKey x.1)) ∧
    (Update plainWidgets sampleOS
      (runUpdates plainWidgets sampleOS
        (Update plainWidgets sampleOS
          (runUpdates plainWidgets sampleOS initialModel [(Msg.ports sampleRecords, [])])
          (Msg.Key "ctrl+d") []).1.1 sampleInterlude)
      (Msg.Key "y") []).2 = [Call.NewProcess 100, Call.Kill ⟨100⟩] :=
  ⟨⟨rfl, rfl, rfl, by decide⟩,
    (((kill_dialog_targets_selection plainWidgets sampleOS).2.2.2
      (runUpdates plainWidgets sampleOS initialModel [(Msg.ports sampleRecords, [])])
      [] [] 0 pythonRecord sampleInterlude "y" rfl rfl rfl rfl (by decide) (Or.inl rfl)).2).trans (by decide)⟩


end Pman
